import Mathlib

/-!
Shallow embedding of `go-dep-updater` (`src/main.go`).

The program walks a directory tree, and for every `go.mod` manifest found it
runs a per-project upgrade pipeline made of subprocess invocations (git and
the go toolchain).  Pure string processing (`getDependencyVersion`,
`shouldUpgrade`, argument handling, prompt trimming) is embedded directly;
each subprocess call is embedded by abstracting its observable result as a
`CmdResult` (the combined stdout/stderr text together with an optional error),
and the per-project pipeline of `main`'s walk callback is a function from
those results to the list of executed steps and a terminal outcome.
`filepath.Walk` semantics are embedded faithfully: a non-nil error returned
by the callback stops the whole walk.
-/

namespace GoDepUpdater

/-- Constant `VersionUnknown` from `main.go`. -/
def VersionUnknown : String := "Unknown"

/-- Constant `VersionNotFound` from `main.go`. -/
def VersionNotFound : String := "NotFound"

/-- Go's `unicode.IsSpace` on the characters relevant to manifests
(space classes recognised by Go's ASCII/Latin-1 fast path). -/
def goIsSpace (c : Char) : Bool :=
  c = ' ' || c = '\t' || c = '\n' || c = '\x0B' || c = '\x0C' || c = '\r' ||
  c = '\x85' || c = '\xA0'

/-- Splitting a character list at every occurrence of `sep`, keeping empty
pieces; `acc` holds the current piece reversed. -/
def splitOnCharAux (sep : Char) : List Char → List Char → List String
  | [], acc => [String.mk acc.reverse]
  | c :: cs, acc =>
    if c = sep then String.mk acc.reverse :: splitOnCharAux sep cs []
    else splitOnCharAux sep cs (c :: acc)

/-- Go's `strings.Split data "\n"`: the list of lines, empties kept. -/
def splitLines (s : String) : List String :=
  splitOnCharAux '\n' s.toList []

/-- `pat` is a prefix of `s` (on character lists). -/
def hasPrefixChars : List Char → List Char → Bool
  | [], _ => true
  | _ :: _, [] => false
  | p :: ps, c :: cs => p = c && hasPrefixChars ps cs

/-- `pat` occurs as a contiguous run somewhere in `s`. -/
def containsAux (pat : List Char) : List Char → Bool
  | [] => pat.isEmpty
  | c :: cs => hasPrefixChars pat (c :: cs) || containsAux pat cs

/-- Go's `strings.Contains s pat`: `pat` occurs as a substring of `s`
(the empty pattern is always contained). -/
def containsSubstring (s pat : String) : Bool :=
  containsAux pat.toList s.toList

/-- Splitting into whitespace-separated fields; `acc` holds the current
field reversed. -/
def fieldsAux : List Char → List Char → List String
  | [], acc => if acc.isEmpty then [] else [String.mk acc.reverse]
  | c :: cs, acc =>
    if goIsSpace c then
      if acc.isEmpty then fieldsAux cs []
      else String.mk acc.reverse :: fieldsAux cs []
    else fieldsAux cs (c :: acc)

/-- Go's `strings.Fields`: split around runs of whitespace, no empty fields. -/
def goFields (s : String) : List String :=
  fieldsAux s.toList []

/-- Go's `strings.TrimSpace`: drop leading and trailing whitespace. -/
def goTrimSpace (s : String) : String :=
  String.mk (((s.toList.dropWhile goIsSpace).reverse.dropWhile goIsSpace).reverse)

/-- Go's `strings.TrimSuffix text "\n"`: remove one trailing newline if present. -/
def trimNewline (s : String) : String :=
  match s.toList.reverse with
  | '\n' :: rest => String.mk rest.reverse
  | _ => s

/-- Result of one subprocess invocation as observed through
`cmd.CombinedOutput()`: combined stdout/stderr text, and `some e` when the
command returned error text `e`. -/
structure CmdResult where
  output : String
  err : Option String
deriving DecidableEq, Repr

/-- `executeCommand` from `main.go`: returns the combined output and error. -/
def executeCommand (r : CmdResult) : String × Option String :=
  (r.output, r.err)

/-- `getDependencyVersion` from `main.go`.  The file content is `none` when
`os.ReadFile` fails.  Scans lines (split on `"\n"`) for the first one
containing the dependency as a substring and returns that line's second
whitespace field; returns `VersionNotFound` when the line has fewer than two
fields, and `VersionUnknown` when the file is unreadable or no line matches. -/
def getDependencyVersion (fileData : Option String) (dependency : String) : String :=
  match fileData with
  | none => VersionUnknown
  | some data =>
    let lines := splitLines data
    match lines.find? (fun line => containsSubstring line dependency) with
    | some line =>
      match goFields line with
      | _ :: second :: _ => second
      | _ => VersionNotFound
    | none => VersionUnknown

/-- `shouldUpgrade` from `main.go`: the current version string and whether an
upgrade is needed (version known and different from the target). -/
def shouldUpgrade (fileData : Option String) (dependency targetVersion : String) :
    String × Bool :=
  let currentVersion := getDependencyVersion fileData dependency
  let isKnownVersion := currentVersion != VersionUnknown && currentVersion != VersionNotFound
  (currentVersion, isKnownVersion && currentVersion != targetVersion)

example : getDependencyVersion (some "github.com/foo/bar v1.2.0") "github.com/foo/bar" = "v1.2.0" := by decide
example : getDependencyVersion (some "nothing here") "github.com/foo/bar" = "Unknown" := by decide
example : getDependencyVersion none "dep" = "Unknown" := by decide
example : getDependencyVersion (some "require github.com/foo v1.2.0") "github.com/foo" = "github.com/foo" := by decide
example : (shouldUpgrade (some "github.com/foo/bar v1.2.0") "github.com/foo/bar" "v1.3.0").2 = true := by decide
example : (shouldUpgrade (some "github.com/foo/bar v1.2.0") "github.com/foo/bar" "v1.2.0").2 = false := by decide

/-- The external-tool invocations (and the initial decision) a project's
pipeline can perform, in the order of `main`'s walk callback. -/
inductive Step
  | decide
  | confirm
  | checkClean
  | branchQuery
  | checkout
  | pull
  | goGet
  | vet
  | test
  | build
  | commit
  | push
deriving DecidableEq, Repr

/-- Position of a step in the pipeline's strict order.  `branchQuery` and
`checkout` together form the ensure-main-branch step. -/
def stepIndex : Step → Nat
  | .decide => 0
  | .confirm => 1
  | .checkClean => 2
  | .branchQuery => 3
  | .checkout => 4
  | .pull => 5
  | .goGet => 6
  | .vet => 7
  | .test => 8
  | .build => 9
  | .commit => 10
  | .push => 11

/-- Terminal state of one project's pipeline. -/
inductive Outcome
  | skippedNoUpgrade
  | skippedByUser
  | skippedUncommitted
  | skippedBranchQueryError
  | skippedCheckoutError
  | failedPull
  | failedGoGet
  | abortedVet
  | abortedTest
  | abortedBuild
  | failedCommit
  | failedPush
  | succeeded
deriving DecidableEq, Repr

/-- Result of `os.Stat` on the entry-point file: success, a does-not-exist
error, or some other stat error. -/
inductive StatResult
  | ok
  | errNotExist
  | errOther
deriving DecidableEq, Repr

/-- `directoryHasFile` from `main.go`: false only when `os.IsNotExist(err)`. -/
def directoryHasFile (s : StatResult) : Bool :=
  match s with
  | .errNotExist => false
  | _ => true

/-- All externally observable inputs to one project's pipeline run: the
manifest content (`none` when unreadable), the confirmation line read from
stdin (`none` when the read errors), the result of each subprocess the
pipeline may spawn, and the stat of `main.go`. -/
structure Env where
  manifest : Option String
  confirmRead : Option String
  statusRes : CmdResult
  branchRes : CmdResult
  checkoutRes : CmdResult
  pullRes : CmdResult
  getRes : CmdResult
  tidyRes : CmdResult
  vetRes : CmdResult
  testRes : CmdResult
  statMainGo : StatResult
  buildRes : CmdResult
  rmRes : CmdResult
  addRes : CmdResult
  commitRes : CmdResult
  pushRes : CmdResult
deriving DecidableEq, Repr

/-- The three CLI-derived values the pipeline depends on. -/
structure Config where
  dependency : String
  targetVersion : String
  confirmBeforeEach : Bool
deriving DecidableEq, Repr

/-- `readInput` from `main.go`: returns `""` on a read error, otherwise the
line with its trailing newline trimmed. -/
def readInput (readRes : Option String) : String :=
  match readRes with
  | none => ""
  | some text => trimNewline text

/-- `hasUncommittedChanges` from `main.go`: the error of
`git status --porcelain` is discarded; only non-empty combined output counts. -/
def hasUncommittedChanges (r : CmdResult) : Bool :=
  let out := (executeCommand r).1
  out.length > 0

/-- Error formatting `fmt.Errorf("%v: %s", err, out)` shared by the wrappers. -/
def cmdError (e out : String) : String :=
  e ++ ": " ++ out

/-- One-command wrapper pattern shared by `gitPull`, `goVet`, `goTest`,
`gitPush`, `gitCheckoutMaster`: error with combined output appended. -/
def runSimple (r : CmdResult) : Except String Unit :=
  match executeCommand r with
  | (out, some e) => .error (cmdError e out)
  | (_, none) => .ok ()

/-- `gitPull` from `main.go`. -/
def gitPull (r : CmdResult) : Except String Unit := runSimple r

/-- `goGetUpdate` from `main.go`: `go get dep@version` then `go mod tidy`. -/
def goGetUpdate (getRes tidyRes : CmdResult) : Except String Unit :=
  match executeCommand getRes with
  | (out, some e) => .error (cmdError e out)
  | (_, none) =>
    match executeCommand tidyRes with
    | (out, some e) => .error (cmdError e out)
    | (_, none) => .ok ()

/-- `goVet` from `main.go`. -/
def goVet (r : CmdResult) : Except String Unit := runSimple r

/-- `goTest` from `main.go`. -/
def goTest (r : CmdResult) : Except String Unit := runSimple r

/-- `goBuild` from `main.go`: build `main.go` to `tmp-app`, then remove it. -/
def goBuild (buildRes rmRes : CmdResult) : Except String Unit :=
  match executeCommand buildRes with
  | (out, some e) => .error (cmdError e out)
  | (_, none) =>
    match executeCommand rmRes with
    | (out, some e) => .error (cmdError e out)
    | (_, none) => .ok ()

/-- Commit message built in `gitCommit`. -/
def commitMessage (dependency targetVersion : String) : String :=
  "Updated " ++ dependency ++ " to version " ++ targetVersion

/-- `gitCommit` from `main.go`: `git add go.mod go.sum`, then
`git commit -m <message>`.  Besides the error result, the list of argv
vectors actually issued is returned so staging can be inspected. -/
def gitCommit (dependency targetVersion : String) (addRes commitRes : CmdResult) :
    List (List String) × Except String Unit :=
  let addCmd := ["git", "add", "go.mod", "go.sum"]
  match executeCommand addRes with
  | (out, some e) => ([addCmd], .error (cmdError e out))
  | (_, none) =>
    let commitCmd := ["git", "commit", "-m", commitMessage dependency targetVersion]
    match executeCommand commitRes with
    | (out, some e) => ([addCmd, commitCmd], .error (cmdError e out))
    | (_, none) => ([addCmd, commitCmd], .ok ())

/-- `gitPush` from `main.go`. -/
def gitPush (r : CmdResult) : Except String Unit := runSimple r

/-- `currentGitBranch` from `main.go`: trimmed output on success. -/
def currentGitBranch (r : CmdResult) : Except String String :=
  match executeCommand r with
  | (out, some e) => .error (cmdError e out)
  | (out, none) => .ok (goTrimSpace out)

/-- `gitCheckoutMaster` from `main.go`. -/
def gitCheckoutMaster (r : CmdResult) : Except String Unit := runSimple r

/-- Pipeline from the push step (`main.go` lines 122-126). -/
def stagePush (env : Env) : List Step × Outcome :=
  match gitPush env.pushRes with
  | .error _ => ([.push], .failedPush)
  | .ok _ => ([.push], .succeeded)

/-- Pipeline from the commit step (`main.go` lines 116-120). -/
def stageCommit (cfg : Config) (env : Env) : List Step × Outcome :=
  match (gitCommit cfg.dependency cfg.targetVersion env.addRes env.commitRes).2 with
  | .error _ => ([.commit], .failedCommit)
  | .ok _ => (Step.commit :: (stagePush env).1, (stagePush env).2)

/-- Pipeline from the conditional build step (`main.go` lines 107-114):
the build only runs when `directoryHasFile projectDir "main.go"` holds. -/
def stageBuild (cfg : Config) (env : Env) : List Step × Outcome :=
  if directoryHasFile env.statMainGo then
    match goBuild env.buildRes env.rmRes with
    | .error _ => ([.build], .abortedBuild)
    | .ok _ => (Step.build :: (stageCommit cfg env).1, (stageCommit cfg env).2)
  else stageCommit cfg env

/-- Pipeline from the test step (`main.go` lines 101-105). -/
def stageTest (cfg : Config) (env : Env) : List Step × Outcome :=
  match goTest env.testRes with
  | .error _ => ([.test], .abortedTest)
  | .ok _ => (Step.test :: (stageBuild cfg env).1, (stageBuild cfg env).2)

/-- Pipeline from the vet step (`main.go` lines 95-99). -/
def stageVet (cfg : Config) (env : Env) : List Step × Outcome :=
  match goVet env.vetRes with
  | .error _ => ([.vet], .abortedVet)
  | .ok _ => (Step.vet :: (stageTest cfg env).1, (stageTest cfg env).2)

/-- Pipeline from the dependency-update step (`main.go` lines 87-91). -/
def stageGoGet (cfg : Config) (env : Env) : List Step × Outcome :=
  match goGetUpdate env.getRes env.tidyRes with
  | .error _ => ([.goGet], .failedGoGet)
  | .ok _ => (Step.goGet :: (stageVet cfg env).1, (stageVet cfg env).2)

/-- Pipeline from the pull step (`main.go` lines 81-85). -/
def stagePull (cfg : Config) (env : Env) : List Step × Outcome :=
  match gitPull env.pullRes with
  | .error _ => ([.pull], .failedPull)
  | .ok _ => (Step.pull :: (stageGoGet cfg env).1, (stageGoGet cfg env).2)

/-- Pipeline from the ensure-main-branch step (`main.go` lines 64-79):
query the branch, switch to `master` when elsewhere. -/
def stageBranch (cfg : Config) (env : Env) : List Step × Outcome :=
  match currentGitBranch env.branchRes with
  | .error _ => ([.branchQuery], .skippedBranchQueryError)
  | .ok currentBranch =>
    if currentBranch != "master" then
      match gitCheckoutMaster env.checkoutRes with
      | .error _ => ([.branchQuery, .checkout], .skippedCheckoutError)
      | .ok _ =>
        (Step.branchQuery :: Step.checkout :: (stagePull cfg env).1, (stagePull cfg env).2)
    else (Step.branchQuery :: (stagePull cfg env).1, (stagePull cfg env).2)

/-- Pipeline from the clean-tree check (`main.go` lines 58-62). -/
def stageClean (cfg : Config) (env : Env) : List Step × Outcome :=
  if hasUncommittedChanges env.statusRes then ([.checkClean], .skippedUncommitted)
  else (Step.checkClean :: (stageBranch cfg env).1, (stageBranch cfg env).2)

/-- Pipeline from the optional confirmation (`main.go` lines 49-54). -/
def stageConfirm (cfg : Config) (env : Env) : List Step × Outcome :=
  if cfg.confirmBeforeEach then
    let answer := readInput env.confirmRead
    if answer != "y" && answer != "yes" then ([.confirm], .skippedByUser)
    else (Step.confirm :: (stageClean cfg env).1, (stageClean cfg env).2)
  else stageClean cfg env

/-- One project's full pipeline, `main.go` lines 43-128: the upgrade decision
followed by the staged sequence.  Returns the steps executed and the
terminal outcome. -/
def processProject (cfg : Config) (env : Env) : List Step × Outcome :=
  if (shouldUpgrade env.manifest cfg.dependency cfg.targetVersion).2 then
    (Step.decide :: (stageConfirm cfg env).1, (stageConfirm cfg env).2)
  else ([.decide], .skippedNoUpgrade)

/-- The error value the walk callback returns to `filepath.Walk` for each
outcome: non-nil exactly for the vet/test/build "aborted" failures
(`main.go` lines 98, 104, 112); every other path returns nil. -/
def outcomeWalkError : Outcome → Option String
  | .abortedVet => some "aborted due to unwanted project state after update. See above error(s)"
  | .abortedTest => some "aborted due to unwanted project state after update. See above error(s)"
  | .abortedBuild => some "aborted due to unwanted project state after update"
  | _ => none

/-- `filepath.Walk` over the discovered projects: callbacks run in order and
a non-nil callback error stops the walk immediately (Go's documented
`filepath.Walk` behaviour). -/
def walkProjects (cfg : Config) : List Env → List (List Step × Outcome)
  | [] => []
  | env :: rest =>
    let r := processProject cfg env
    match outcomeWalkError r.2 with
    | some _ => [r]
    | none => r :: walkProjects cfg rest

/-- Result of a whole program run. -/
inductive RunResult
  | usageError
  | walked (results : List (List Step × Outcome))
deriving DecidableEq, Repr

/-- The `confirm-each` flag parsing (`main.go` lines 28-32). -/
def confirmFlag (args : List String) : Bool :=
  if 5 ≤ args.length then args.getD 4 "" == "confirm-each" else false

/-- `main` from `main.go`: `args` is `os.Args` (program name included).
Fewer than four entries prints usage and returns before any walk; otherwise
the walk runs with the parsed configuration. -/
def mainRun (args : List String) (envs : List Env) : RunResult :=
  if args.length < 4 then .usageError
  else
    .walked (walkProjects
      ⟨args.getD 2 "", args.getD 3 "", confirmFlag args⟩ envs)

/-- A subprocess result with empty output and no error. -/
def okCmd : CmdResult := ⟨"", none⟩

/-- A failing subprocess result with non-empty combined output. -/
def failCmd : CmdResult := ⟨"boom", some "exit status 1"⟩

/-- Sample configuration: bump `github.com/foo/bar` to `v2.0.0`, no prompt. -/
def cfgEx : Config := ⟨"github.com/foo/bar", "v2.0.0", false⟩

/-- Sample project where every external call succeeds: manifest pins
`v1.0.0`, tree clean, already on `master`, no `main.go`. -/
def envOk : Env :=
  { manifest := some "github.com/foo/bar v1.0.0\n"
    confirmRead := none
    statusRes := okCmd
    branchRes := ⟨"master\n", none⟩
    checkoutRes := okCmd
    pullRes := okCmd
    getRes := okCmd
    tidyRes := okCmd
    vetRes := okCmd
    testRes := okCmd
    statMainGo := .errNotExist
    buildRes := okCmd
    rmRes := okCmd
    addRes := okCmd
    commitRes := okCmd
    pushRes := okCmd }

/-- Same project but `go vet` fails. -/
def envVetFail : Env := { envOk with vetRes := failCmd }

example : processProject cfgEx envOk =
    ([.decide, .checkClean, .branchQuery, .pull, .goGet, .vet, .test, .commit, .push],
      .succeeded) := by decide
example : processProject cfgEx envVetFail =
    ([.decide, .checkClean, .branchQuery, .pull, .goGet, .vet], .abortedVet) := by decide
example : walkProjects cfgEx [envVetFail, envOk] =
    [([.decide, .checkClean, .branchQuery, .pull, .goGet, .vet], .abortedVet)] := by decide
example : walkProjects cfgEx [{ envOk with pullRes := failCmd }, envOk] =
    [([.decide, .checkClean, .branchQuery, .pull], .failedPull),
     ([.decide, .checkClean, .branchQuery, .pull, .goGet, .vet, .test, .commit, .push],
       .succeeded)] := by decide

/-- The pipeline step at which each outcome terminates the project
(`succeeded` terminates after the final step). -/
def haltStep : Outcome → Step
  | .skippedNoUpgrade => .decide
  | .skippedByUser => .confirm
  | .skippedUncommitted => .checkClean
  | .skippedBranchQueryError => .branchQuery
  | .skippedCheckoutError => .checkout
  | .failedPull => .pull
  | .failedGoGet => .goGet
  | .abortedVet => .vet
  | .abortedTest => .test
  | .abortedBuild => .build
  | .failedCommit => .commit
  | .failedPush => .push
  | .succeeded => .push

/-- Steps that mutate external state (git working tree, manifest, remote). -/
def isMutating : Step → Bool
  | .checkout | .pull | .goGet | .build | .commit | .push => true
  | _ => false

lemma stagePush_bound (env : Env) :
    (∀ t ∈ (stagePush env).1, stepIndex t ≤ stepIndex (haltStep (stagePush env).2))
    ∧ 11 ≤ stepIndex (haltStep (stagePush env).2) := by
  unfold stagePush
  cases gitPush env.pushRes <;> simp [haltStep, stepIndex]

lemma stageCommit_bound (cfg : Config) (env : Env) :
    (∀ t ∈ (stageCommit cfg env).1, stepIndex t ≤ stepIndex (haltStep (stageCommit cfg env).2))
    ∧ 10 ≤ stepIndex (haltStep (stageCommit cfg env).2) := by
  obtain ⟨h1, h2⟩ := stagePush_bound env
  unfold stageCommit
  split
  · simp [haltStep, stepIndex]
  · dsimp only
    refine ⟨?_, by omega⟩
    intro t ht
    simp only [List.mem_cons] at ht
    rcases ht with rfl | ht
    · exact le_trans (by decide) h2
    · exact h1 t ht

lemma stageBuild_bound (cfg : Config) (env : Env) :
    (∀ t ∈ (stageBuild cfg env).1, stepIndex t ≤ stepIndex (haltStep (stageBuild cfg env).2))
    ∧ 9 ≤ stepIndex (haltStep (stageBuild cfg env).2) := by
  obtain ⟨h1, h2⟩ := stageCommit_bound cfg env
  unfold stageBuild
  split
  · split
    · simp [haltStep, stepIndex]
    · dsimp only
      refine ⟨?_, by omega⟩
      intro t ht
      simp only [List.mem_cons] at ht
      rcases ht with rfl | ht
      · exact le_trans (by decide) h2
      · exact h1 t ht
  · exact ⟨h1, by omega⟩

lemma stageTest_bound (cfg : Config) (env : Env) :
    (∀ t ∈ (stageTest cfg env).1, stepIndex t ≤ stepIndex (haltStep (stageTest cfg env).2))
    ∧ 8 ≤ stepIndex (haltStep (stageTest cfg env).2) := by
  obtain ⟨h1, h2⟩ := stageBuild_bound cfg env
  unfold stageTest
  split
  · simp [haltStep, stepIndex]
  · dsimp only
    refine ⟨?_, by omega⟩
    intro t ht
    simp only [List.mem_cons] at ht
    rcases ht with rfl | ht
    · exact le_trans (by decide) h2
    · exact h1 t ht

lemma stageVet_bound (cfg : Config) (env : Env) :
    (∀ t ∈ (stageVet cfg env).1, stepIndex t ≤ stepIndex (haltStep (stageVet cfg env).2))
    ∧ 7 ≤ stepIndex (haltStep (stageVet cfg env).2) := by
  obtain ⟨h1, h2⟩ := stageTest_bound cfg env
  unfold stageVet
  split
  · simp [haltStep, stepIndex]
  · dsimp only
    refine ⟨?_, by omega⟩
    intro t ht
    simp only [List.mem_cons] at ht
    rcases ht with rfl | ht
    · exact le_trans (by decide) h2
    · exact h1 t ht

lemma stageGoGet_bound (cfg : Config) (env : Env) :
    (∀ t ∈ (stageGoGet cfg env).1, stepIndex t ≤ stepIndex (haltStep (stageGoGet cfg env).2))
    ∧ 6 ≤ stepIndex (haltStep (stageGoGet cfg env).2) := by
  obtain ⟨h1, h2⟩ := stageVet_bound cfg env
  unfold stageGoGet
  split
  · simp [haltStep, stepIndex]
  · dsimp only
    refine ⟨?_, by omega⟩
    intro t ht
    simp only [List.mem_cons] at ht
    rcases ht with rfl | ht
    · exact le_trans (by decide) h2
    · exact h1 t ht

lemma stagePull_bound (cfg : Config) (env : Env) :
    (∀ t ∈ (stagePull cfg env).1, stepIndex t ≤ stepIndex (haltStep (stagePull cfg env).2))
    ∧ 5 ≤ stepIndex (haltStep (stagePull cfg env).2) := by
  obtain ⟨h1, h2⟩ := stageGoGet_bound cfg env
  unfold stagePull
  split
  · simp [haltStep, stepIndex]
  · dsimp only
    refine ⟨?_, by omega⟩
    intro t ht
    simp only [List.mem_cons] at ht
    rcases ht with rfl | ht
    · exact le_trans (by decide) h2
    · exact h1 t ht

lemma stageBranch_bound (cfg : Config) (env : Env) :
    (∀ t ∈ (stageBranch cfg env).1, stepIndex t ≤ stepIndex (haltStep (stageBranch cfg env).2))
    ∧ 3 ≤ stepIndex (haltStep (stageBranch cfg env).2) := by
  obtain ⟨h1, h2⟩ := stagePull_bound cfg env
  unfold stageBranch
  split
  · simp [haltStep, stepIndex]
  · split
    · split
      · simp [haltStep, stepIndex]
      · dsimp only
        refine ⟨?_, by omega⟩
        intro t ht
        simp only [List.mem_cons] at ht
        rcases ht with rfl | rfl | ht
        · exact le_trans (by decide) h2
        · exact le_trans (by decide) h2
        · exact h1 t ht
    · dsimp only
      refine ⟨?_, by omega⟩
      intro t ht
      simp only [List.mem_cons] at ht
      rcases ht with rfl | ht
      · exact le_trans (by decide) h2
      · exact h1 t ht

lemma stageClean_bound (cfg : Config) (env : Env) :
    (∀ t ∈ (stageClean cfg env).1, stepIndex t ≤ stepIndex (haltStep (stageClean cfg env).2))
    ∧ 2 ≤ stepIndex (haltStep (stageClean cfg env).2) := by
  obtain ⟨h1, h2⟩ := stageBranch_bound cfg env
  unfold stageClean
  split
  · simp [haltStep, stepIndex]
  · dsimp only
    refine ⟨?_, by omega⟩
    intro t ht
    simp only [List.mem_cons] at ht
    rcases ht with rfl | ht
    · exact le_trans (by decide) h2
    · exact h1 t ht

lemma stageConfirm_bound (cfg : Config) (env : Env) :
    (∀ t ∈ (stageConfirm cfg env).1, stepIndex t ≤ stepIndex (haltStep (stageConfirm cfg env).2))
    ∧ 1 ≤ stepIndex (haltStep (stageConfirm cfg env).2) := by
  obtain ⟨h1, h2⟩ := stageClean_bound cfg env
  unfold stageConfirm
  split
  · dsimp only
    split
    · simp [haltStep, stepIndex]
    · dsimp only
      refine ⟨?_, by omega⟩
      intro t ht
      simp only [List.mem_cons] at ht
      rcases ht with rfl | ht
      · exact le_trans (by decide) h2
      · exact h1 t ht
  · exact ⟨h1, by omega⟩

lemma build_not_mem_stagePush (env : Env) : Step.build ∉ (stagePush env).1 := by
  unfold stagePush
  split <;> simp

lemma build_not_mem_stageCommit (cfg : Config) (env : Env) :
    Step.build ∉ (stageCommit cfg env).1 := by
  have h := build_not_mem_stagePush env
  unfold stageCommit
  split
  · simp
  · dsimp only
    simp only [List.mem_cons, not_or]
    exact ⟨by decide, h⟩

lemma build_mem_stageBuild (cfg : Config) (env : Env) :
    Step.build ∈ (stageBuild cfg env).1 ↔ directoryHasFile env.statMainGo = true := by
  have h := build_not_mem_stageCommit cfg env
  unfold stageBuild
  split
  · rename_i hd
    split
    · simp [hd]
    · simp [hd]
  · rename_i hd
    simp only [Bool.not_eq_true] at hd
    simp [h, hd]

lemma build_mem_stageTest (cfg : Config) (env : Env) :
    Step.build ∈ (stageTest cfg env).1 → directoryHasFile env.statMainGo = true := by
  intro ht
  unfold stageTest at ht
  split at ht
  · simp at ht
  · dsimp only at ht
    simp only [List.mem_cons] at ht
    rcases ht with h' | ht
    · exact absurd h' (by decide)
    · exact (build_mem_stageBuild cfg env).mp ht

lemma build_mem_stageVet (cfg : Config) (env : Env) :
    Step.build ∈ (stageVet cfg env).1 → directoryHasFile env.statMainGo = true := by
  intro ht
  unfold stageVet at ht
  split at ht
  · simp at ht
  · dsimp only at ht
    simp only [List.mem_cons] at ht
    rcases ht with h' | ht
    · exact absurd h' (by decide)
    · exact build_mem_stageTest cfg env ht

lemma build_mem_stageGoGet (cfg : Config) (env : Env) :
    Step.build ∈ (stageGoGet cfg env).1 → directoryHasFile env.statMainGo = true := by
  intro ht
  unfold stageGoGet at ht
  split at ht
  · simp at ht
  · dsimp only at ht
    simp only [List.mem_cons] at ht
    rcases ht with h' | ht
    · exact absurd h' (by decide)
    · exact build_mem_stageVet cfg env ht

lemma build_mem_stagePull (cfg : Config) (env : Env) :
    Step.build ∈ (stagePull cfg env).1 → directoryHasFile env.statMainGo = true := by
  intro ht
  unfold stagePull at ht
  split at ht
  · simp at ht
  · dsimp only at ht
    simp only [List.mem_cons] at ht
    rcases ht with h' | ht
    · exact absurd h' (by decide)
    · exact build_mem_stageGoGet cfg env ht

lemma build_mem_stageBranch (cfg : Config) (env : Env) :
    Step.build ∈ (stageBranch cfg env).1 → directoryHasFile env.statMainGo = true := by
  intro ht
  unfold stageBranch at ht
  split at ht
  · simp at ht
  · split at ht
    · split at ht
      · simp at ht
      · dsimp only at ht
        simp only [List.mem_cons] at ht
        rcases ht with h' | h' | ht
        · exact absurd h' (by decide)
        · exact absurd h' (by decide)
        · exact build_mem_stagePull cfg env ht
    · dsimp only at ht
      simp only [List.mem_cons] at ht
      rcases ht with h' | ht
      · exact absurd h' (by decide)
      · exact build_mem_stagePull cfg env ht

lemma build_mem_stageClean (cfg : Config) (env : Env) :
    Step.build ∈ (stageClean cfg env).1 → directoryHasFile env.statMainGo = true := by
  intro ht
  unfold stageClean at ht
  split at ht
  · simp at ht
  · dsimp only at ht
    simp only [List.mem_cons] at ht
    rcases ht with h' | ht
    · exact absurd h' (by decide)
    · exact build_mem_stageBranch cfg env ht

lemma build_mem_stageConfirm (cfg : Config) (env : Env) :
    Step.build ∈ (stageConfirm cfg env).1 → directoryHasFile env.statMainGo = true := by
  intro ht
  unfold stageConfirm at ht
  split at ht
  · dsimp only at ht
    split at ht
    · simp at ht
    · simp only [List.mem_cons] at ht
      rcases ht with h' | ht
      · exact absurd h' (by decide)
      · exact build_mem_stageClean cfg env ht
  · exact build_mem_stageClean cfg env ht

lemma string_append_assoc (a b c : String) : a ++ b ++ c = a ++ (b ++ c) := by
  cases a with
  | mk la =>
    cases b with
    | mk lb =>
      cases c with
      | mk lc =>
        show String.mk ((la ++ lb) ++ lc) = String.mk (la ++ (lb ++ lc))
        rw [List.append_assoc]

/-- C2 counterexample: a readable manifest in which no line contains the
dependency name is classified `Unknown`, not `NotFound` as the claim states
(`main.go` line 235 returns `VersionUnknown` when the line scan finds no
match). -/
theorem inspector_absent_line_counterexample :
    getDependencyVersion
      (some "module example.com/app\n\nrequire other/dep v1.0.0\n")
      "github.com/foo/bar" = VersionUnknown
    ∧ VersionUnknown ≠ VersionNotFound := by decide

/-- C2 (amended): an unreadable manifest is classified `Unknown`; a readable
manifest in which no line contains the dependency name is also classified
`Unknown` (`NotFound` arises only from a matching line with fewer than two
fields); and neither the `Unknown` nor the `NotFound` classification ever
makes the upgrade decision report that an upgrade is needed. -/
theorem inspector_classification (data dependency targetVersion : String)
    (fd : Option String) :
    getDependencyVersion none dependency = VersionUnknown
    ∧ ((∀ line ∈ splitLines data, containsSubstring line dependency = false) →
        getDependencyVersion (some data) dependency = VersionUnknown)
    ∧ ((getDependencyVersion fd dependency = VersionUnknown ∨
        getDependencyVersion fd dependency = VersionNotFound) →
        (shouldUpgrade fd dependency targetVersion).2 = false) := by
  refine ⟨rfl, ?_, ?_⟩
  · intro h
    have h' : (splitLines data).find?
        (fun line => containsSubstring line dependency) = none := by
      rw [List.find?_eq_none]
      intro x hx
      simp [h x hx]
    unfold getDependencyVersion
    simp [h']
  · intro h
    unfold shouldUpgrade
    dsimp only
    rcases h with h | h <;> simp [h]

/-- C2 witness: concrete manifest without the dependency line. -/
theorem inspector_classification_witness :
    getDependencyVersion (some "bar baz") "foo" = VersionUnknown
    ∧ (shouldUpgrade (some "bar baz") "foo" "v1").2 = false := by
  have h := inspector_classification "bar baz" "foo" "v1" (some "bar baz")
  exact ⟨h.2.1 (by decide), h.2.2 (Or.inl (h.2.1 (by decide)))⟩

/-- C3 counterexample: on the line `require github.com/foo v1.2.0` the token
following the dependency name `github.com/foo` is `v1.2.0`, but the inspector
returns the line's second field `github.com/foo` (`parts[1]` in `main.go`
line 229); and with the dependency as last token of a two-field line it
returns that token rather than `NotFound`. -/
theorem inspector_token_counterexample :
    getDependencyVersion (some "require github.com/foo v1.2.0") "github.com/foo"
      = "github.com/foo"
    ∧ "github.com/foo" ≠ "v1.2.0"
    ∧ goFields "require github.com/foo v1.2.0"
      = ["require", "github.com/foo", "v1.2.0"]
    ∧ getDependencyVersion (some "require github.com/foo") "github.com/foo"
      = "github.com/foo"
    ∧ "github.com/foo" ≠ VersionNotFound := by decide

/-- C3 (amended): for the first line containing the dependency name, the
inspector returns the line's second whitespace-delimited field verbatim
(which coincides with the token following the dependency only when the
dependency is the first field), and returns `NotFound` exactly when that
line has fewer than two fields. -/
theorem inspector_second_field (data dependency line : String)
    (h : (splitLines data).find?
      (fun l => containsSubstring l dependency) = some line) :
    (∀ f0 f1 rest, goFields line = f0 :: f1 :: rest →
        getDependencyVersion (some data) dependency = f1)
    ∧ ((goFields line).length < 2 →
        getDependencyVersion (some data) dependency = VersionNotFound) := by
  unfold getDependencyVersion
  simp only [h]
  constructor
  · intro f0 f1 rest hf
    simp [hf]
  · intro hl
    rcases hgf : goFields line with _ | ⟨f0, _ | ⟨f1, rest⟩⟩
    · simp [hgf]
    · simp [hgf]
    · rw [hgf] at hl
      simp only [List.length_cons] at hl
      omega

/-- C3 witness: the dependency is the first field, so the second field is
the version token. -/
theorem inspector_second_field_witness :
    getDependencyVersion (some "github.com/foo/bar v1.2.0") "github.com/foo/bar"
      = "v1.2.0" :=
  (inspector_second_field "github.com/foo/bar v1.2.0" "github.com/foo/bar"
    "github.com/foo/bar v1.2.0" (by decide)).1
    "github.com/foo/bar" "v1.2.0" [] (by decide)

/-- C4: the decision reports "needs upgrade" iff the inspected version is
neither `Unknown` nor `NotFound` and differs from the target as an opaque
string; equality with the target always yields "no upgrade needed". -/
theorem upgrade_decision_iff (fileData : Option String)
    (dependency targetVersion : String) :
    ((shouldUpgrade fileData dependency targetVersion).2 = true ↔
      (getDependencyVersion fileData dependency ≠ VersionUnknown ∧
       getDependencyVersion fileData dependency ≠ VersionNotFound ∧
       getDependencyVersion fileData dependency ≠ targetVersion))
    ∧ (getDependencyVersion fileData dependency = targetVersion →
        (shouldUpgrade fileData dependency targetVersion).2 = false) := by
  unfold shouldUpgrade
  dsimp only
  constructor
  · simp [Bool.and_eq_true, bne_iff_ne, and_assoc]
  · intro h
    simp [h]

/-- C4 witness: equal current and target version yields "no upgrade". -/
theorem upgrade_decision_iff_witness :
    (shouldUpgrade (some "github.com/foo/bar v1.2.0") "github.com/foo/bar"
      "v1.2.0").2 = false :=
  (upgrade_decision_iff (some "github.com/foo/bar v1.2.0") "github.com/foo/bar"
    "v1.2.0").2 (by decide)

lemma commitMessage_embeds_dependency (dependency targetVersion : String) :
    commitMessage dependency targetVersion =
      "Updated " ++ dependency ++ (" to version " ++ targetVersion) := by
  show ("Updated " ++ dependency ++ " to version ") ++ targetVersion =
    ("Updated " ++ dependency) ++ (" to version " ++ targetVersion)
  rw [string_append_assoc ("Updated " ++ dependency) " to version " targetVersion]

/-- C8: the commit step always stages exactly `go.mod` and `go.sum` (the
`git add` argv is fixed, independent of any other working-tree state), the
only other command it issues is the `git commit`, and the commit message
embeds both the dependency name and the target version. -/
theorem commit_stages_and_message (dependency targetVersion : String)
    (addRes commitRes : CmdResult) :
    (gitCommit dependency targetVersion addRes commitRes).1.head?
      = some ["git", "add", "go.mod", "go.sum"]
    ∧ (∀ c ∈ (gitCommit dependency targetVersion addRes commitRes).1,
        c = ["git", "add", "go.mod", "go.sum"] ∨
        c = ["git", "commit", "-m", commitMessage dependency targetVersion])
    ∧ (∃ pre post, commitMessage dependency targetVersion = pre ++ dependency ++ post)
    ∧ (∃ pre post, commitMessage dependency targetVersion = pre ++ targetVersion ++ post) := by
  refine ⟨?_, ?_, ?_, ?_⟩
  · unfold gitCommit
    split
    · rfl
    · dsimp only
      split
      · rfl
      · rfl
  · intro c hc
    unfold gitCommit at hc
    split at hc
    · simp only [List.mem_singleton] at hc
      exact Or.inl hc
    · dsimp only at hc
      split at hc <;>
        · simp only [List.mem_cons, List.not_mem_nil, or_false] at hc
          rcases hc with rfl | rfl
          · exact Or.inl rfl
          · exact Or.inr rfl
  · refine ⟨"Updated ", " to version " ++ targetVersion, ?_⟩
    rw [string_append_assoc "Updated " dependency (" to version " ++ targetVersion)]
    exact commitMessage_embeds_dependency dependency targetVersion
  · refine ⟨"Updated " ++ dependency ++ " to version ", "", ?_⟩
    rw [String.append_empty]
    rfl

/-- C8 witness: both commands on a run where both succeed. -/
theorem commit_stages_and_message_witness :
    ["git", "commit", "-m", commitMessage "github.com/foo/bar" "v2.0.0"]
      = ["git", "add", "go.mod", "go.sum"] ∨
    ["git", "commit", "-m", commitMessage "github.com/foo/bar" "v2.0.0"]
      = ["git", "commit", "-m", commitMessage "github.com/foo/bar" "v2.0.0"] :=
  (commit_stages_and_message "github.com/foo/bar" "v2.0.0" okCmd okCmd).2.1
    ["git", "commit", "-m", commitMessage "github.com/foo/bar" "v2.0.0"] (by decide)

/-- C10: the clean-tree check discards the status command's error and
classifies "uncommitted changes" exactly when the combined output is
non-empty; consequently a project whose status command itself fails with
non-empty output is skipped as if it had uncommitted changes. -/
theorem uncommitted_check (out : String) (e1 e2 : Option String)
    (cfg : Config) (env : Env) :
    hasUncommittedChanges ⟨out, e1⟩ = hasUncommittedChanges ⟨out, e2⟩
    ∧ (hasUncommittedChanges ⟨out, e1⟩ = true ↔ 0 < out.length)
    ∧ ((shouldUpgrade env.manifest cfg.dependency cfg.targetVersion).2 = true →
        (cfg.confirmBeforeEach = true →
          (readInput env.confirmRead = "y" ∨ readInput env.confirmRead = "yes")) →
        0 < env.statusRes.output.length →
        (processProject cfg env).2 = Outcome.skippedUncommitted) := by
  refine ⟨rfl, ?_, ?_⟩
  · simp [hasUncommittedChanges, executeCommand]
  · intro hu hc hs
    unfold processProject
    rw [if_pos hu]
    dsimp only
    have hstatus : hasUncommittedChanges env.statusRes = true := by
      simpa [hasUncommittedChanges, executeCommand] using hs
    unfold stageConfirm
    split
    · rename_i hcb
      dsimp only
      split
      · rename_i hans
        exfalso
        rcases hc hcb with hy | hy <;> simp [hy] at hans
      · dsimp only
        unfold stageClean
        rw [if_pos hstatus]
    · unfold stageClean
      rw [if_pos hstatus]

/-- C10 witness: a status command that itself fails, with non-empty combined
output, makes the project skip as "uncommitted changes". -/
theorem uncommitted_check_witness :
    (processProject cfgEx
      { envOk with statusRes := ⟨"M go.mod", some "status failed"⟩ }).2
      = Outcome.skippedUncommitted := by
  have h := uncommitted_check "x" none none cfgEx
    { envOk with statusRes := ⟨"M go.mod", some "status failed"⟩ }
  exact h.2.2 (by decide) (fun h' => absurd h' (by decide)) (by decide)

/-- C9: fewer than 3 positional arguments (list length < 4 with the program
name) yields the usage error before any walk; the confirmation prompt is
enabled iff a fourth positional argument exists and equals `confirm-each`
literally; the prompt input has exactly one trailing newline trimmed; and
with the prompt enabled a project proceeds past the confirmation exactly
when the trimmed line equals `y` or `yes` case-sensitively. -/
theorem cli_and_confirm (args : List String) (envs : List Env) (s : String)
    (cfg : Config) (env : Env) :
    (args.length < 4 → mainRun args envs = RunResult.usageError)
    ∧ (confirmFlag args = true ↔ (5 ≤ args.length ∧ args.getD 4 "" = "confirm-each"))
    ∧ readInput (some s) = trimNewline s
    ∧ readInput none = ""
    ∧ (cfg.confirmBeforeEach = true →
        (if readInput env.confirmRead = "y" ∨ readInput env.confirmRead = "yes"
         then stageConfirm cfg env =
           (Step.confirm :: (stageClean cfg env).1, (stageClean cfg env).2)
         else stageConfirm cfg env = ([Step.confirm], Outcome.skippedByUser))) := by
  refine ⟨?_, ?_, rfl, rfl, ?_⟩
  · intro h
    unfold mainRun
    rw [if_pos h]
  · unfold confirmFlag
    split
    · rename_i h
      simp [h]
    · rename_i h
      simp [h]
  · intro hcb
    by_cases hy : readInput env.confirmRead = "y" ∨ readInput env.confirmRead = "yes"
    · rw [if_pos hy]
      unfold stageConfirm
      rw [if_pos hcb]
      dsimp only
      rw [if_neg ?_]
      rcases hy with hy | hy <;> simp [hy]
    · rw [if_neg hy]
      unfold stageConfirm
      rw [if_pos hcb]
      dsimp only
      rw [if_pos ?_]
      push_neg at hy
      simp only [Bool.and_eq_true, bne_iff_ne]
      exact ⟨hy.1, hy.2⟩

/-- C9 witness: one-argument invocation errors out; a declined prompt skips
the project. -/
theorem cli_and_confirm_witness :
    mainRun ["go-dep-updater"] [] = RunResult.usageError
    ∧ stageConfirm ⟨"github.com/foo/bar", "v2.0.0", true⟩
        { envOk with confirmRead := some "no\n" }
        = ([Step.confirm], Outcome.skippedByUser) := by
  have h := cli_and_confirm ["go-dep-updater"] [] "x\n"
    ⟨"github.com/foo/bar", "v2.0.0", true⟩ { envOk with confirmRead := some "no\n" }
  refine ⟨h.1 (by decide), ?_⟩
  have h5 := h.2.2.2.2 rfl
  rw [if_neg (by decide)] at h5
  exact h5

/-- C5: pipeline short-circuiting — every step a project's pipeline actually
executes is at or before the step at which its outcome terminated the
pipeline, so once a step fails or terminates the run, no later step of the
ordered sequence is executed for that project. -/
theorem pipeline_short_circuit (cfg : Config) (env : Env) (t : Step)
    (ht : t ∈ (processProject cfg env).1) :
    stepIndex t ≤ stepIndex (haltStep (processProject cfg env).2) := by
  by_cases h : (shouldUpgrade env.manifest cfg.dependency cfg.targetVersion).2 = true
  · unfold processProject at ht ⊢
    rw [if_pos h] at ht ⊢
    dsimp only at ht ⊢
    obtain ⟨h1, h2⟩ := stageConfirm_bound cfg env
    simp only [List.mem_cons] at ht
    rcases ht with rfl | ht
    · exact Nat.zero_le _
    · exact h1 t ht
  · unfold processProject at ht ⊢
    rw [if_neg h] at ht ⊢
    simp only [List.mem_singleton] at ht
    subst ht
    exact le_refl _

/-- C5 witness: with `go vet` failing, the executed vet step is at the halt
position. -/
theorem pipeline_short_circuit_witness :
    stepIndex Step.vet ≤ stepIndex (haltStep (processProject cfgEx envVetFail).2) :=
  pipeline_short_circuit cfgEx envVetFail Step.vet (by decide)

/-- C6: a mutating step (checkout, pull, dependency update, build, commit,
push) is only ever executed when the upgrade decision reported "needs
upgrade", any enabled confirmation was answered `y`/`yes`, and the
uncommitted-changes check found a clean tree; on failure the pipeline simply
stops (the embedding has no rollback command at all). -/
theorem mutation_gated (cfg : Config) (env : Env) (t : Step)
    (ht : t ∈ (processProject cfg env).1) (hm : isMutating t = true) :
    (shouldUpgrade env.manifest cfg.dependency cfg.targetVersion).2 = true
    ∧ (cfg.confirmBeforeEach = true →
        (readInput env.confirmRead = "y" ∨ readInput env.confirmRead = "yes"))
    ∧ hasUncommittedChanges env.statusRes = false := by
  by_cases h : (shouldUpgrade env.manifest cfg.dependency cfg.targetVersion).2 = true
  · unfold processProject at ht
    rw [if_pos h] at ht
    dsimp only at ht
    simp only [List.mem_cons] at ht
    rcases ht with rfl | ht
    · exact absurd hm (by decide)
    unfold stageConfirm at ht
    split at ht
    · rename_i hcb
      dsimp only at ht
      split at ht
      · simp only [List.mem_singleton] at ht
        subst ht
        exact absurd hm (by decide)
      · rename_i hans
        simp only [List.mem_cons] at ht
        rcases ht with rfl | ht
        · exact absurd hm (by decide)
        have hacc : readInput env.confirmRead = "y" ∨ readInput env.confirmRead = "yes" := by
          by_contra hno
          push_neg at hno
          exact hans (by simp only [Bool.and_eq_true, bne_iff_ne]; exact ⟨hno.1, hno.2⟩)
        unfold stageClean at ht
        split at ht
        · simp only [List.mem_singleton] at ht
          subst ht
          exact absurd hm (by decide)
        · rename_i hu
          simp only [Bool.not_eq_true] at hu
          exact ⟨h, fun _ => hacc, hu⟩
    · rename_i hcb
      unfold stageClean at ht
      split at ht
      · simp only [List.mem_singleton] at ht
        subst ht
        exact absurd hm (by decide)
      · rename_i hu
        simp only [Bool.not_eq_true] at hu
        exact ⟨h, fun hc => absurd hc hcb, hu⟩
  · unfold processProject at ht
    rw [if_neg h] at ht
    simp only [List.mem_singleton] at ht
    subst ht
    exact absurd hm (by decide)

/-- C6 witness: the pull step runs in the all-success environment, where the
decision was "needs upgrade" and the tree was clean. -/
theorem mutation_gated_witness :
    (shouldUpgrade envOk.manifest cfgEx.dependency cfgEx.targetVersion).2 = true
    ∧ hasUncommittedChanges envOk.statusRes = false := by
  have h := mutation_gated cfgEx envOk Step.pull (by decide) (by decide)
  exact ⟨h.1, h.2.2⟩

/-- C7: for a project reaching the conditional build step (embodied by
`stageBuild`, the pipeline from that step on), the build is executed iff
`directoryHasFile` reports the entry-point file `main.go` present; and
whenever that report is false the build step is never executed anywhere in
the project's pipeline. -/
theorem conditional_build (cfg : Config) (env : Env) :
    (Step.build ∈ (stageBuild cfg env).1 ↔ directoryHasFile env.statMainGo = true)
    ∧ (directoryHasFile env.statMainGo = false →
        Step.build ∉ (processProject cfg env).1) := by
  refine ⟨build_mem_stageBuild cfg env, ?_⟩
  intro hd ht
  unfold processProject at ht
  split at ht
  · dsimp only at ht
    simp only [List.mem_cons] at ht
    rcases ht with h' | ht
    · exact absurd h' (by decide)
    · have hb := build_mem_stageConfirm cfg env ht
      rw [hd] at hb
      exact absurd hb (by decide)
  · simp at ht

/-- C7 witness: no `main.go` in the sample project, so no build step runs. -/
theorem conditional_build_witness :
    Step.build ∉ (processProject cfgEx envOk).1 :=
  (conditional_build cfgEx envOk).2 (by decide)

/-- C1 counterexample: with two discovered projects and a `go vet` failure
in the first, the walk callback returns a non-nil error, `filepath.Walk`
stops, and the second project is never processed — contradicting the claim
that vet/test/build failures are terminal only for the failing project. -/
theorem walk_stops_on_vet_counterexample :
    (processProject cfgEx envVetFail).2 = Outcome.abortedVet
    ∧ walkProjects cfgEx [envVetFail, envOk]
      = [([Step.decide, Step.checkClean, Step.branchQuery, Step.pull,
           Step.goGet, Step.vet], Outcome.abortedVet)]
    ∧ (walkProjects cfgEx [envVetFail, envOk]).length = 1
    ∧ (processProject cfgEx envOk).2 = Outcome.succeeded := by decide

/-- C1 (amended): a failure at the static-check, test, or conditional build
step makes the walk callback return a non-nil error, which terminates the
entire directory walk — subsequent projects are not processed and the error
is surfaced at top level; every other per-project outcome returns nil, and
for those the scan does continue with the remaining projects. -/
theorem walk_abort_propagation (cfg : Config) (env : Env) (rest : List Env) :
    (((processProject cfg env).2 = Outcome.abortedVet ∨
      (processProject cfg env).2 = Outcome.abortedTest ∨
      (processProject cfg env).2 = Outcome.abortedBuild) →
        walkProjects cfg (env :: rest) = [processProject cfg env])
    ∧ (outcomeWalkError (processProject cfg env).2 = none →
        walkProjects cfg (env :: rest)
          = processProject cfg env :: walkProjects cfg rest) := by
  constructor
  · intro h
    unfold walkProjects
    rcases h with h | h | h <;> simp [h, outcomeWalkError]
  · intro h
    have hcons : walkProjects cfg (env :: rest)
        = match outcomeWalkError (processProject cfg env).2 with
          | some _ => [processProject cfg env]
          | none => processProject cfg env :: walkProjects cfg rest := rfl
    rw [hcons, h]

/-- C1 witness: a vet failure stops the walk before the second project, and
a project with a nil callback error lets the walk continue. -/
theorem walk_abort_propagation_witness :
    walkProjects cfgEx [envVetFail, envOk] = [processProject cfgEx envVetFail]
    ∧ walkProjects cfgEx [envOk, envVetFail]
      = processProject cfgEx envOk :: walkProjects cfgEx [envVetFail] := by
  have h1 := walk_abort_propagation cfgEx envVetFail [envOk]
  have h2 := walk_abort_propagation cfgEx envOk [envVetFail]
  exact ⟨h1.1 (Or.inl (by decide)), h2.2 (by decide)⟩

end GoDepUpdater
